import Mathlib

/-!
Shallow embedding of the osteopo risk/therapy decision engine
(dideldei/osteopo). Sources embedded here:

* src/src/data/lookup.ts        — age/T-score binning, cell lookup, band naming
* src/src/data/rfSelection.ts   — top-2 risk-factor selection, multiplier, threshold test
* src/src/data/rfCatalog.ts     — risk-factor catalog filtering, MEG index, MEG rules
* src/src/data/therapy.ts       — therapy-strategy derivation, candidate substances
* src/src/data/substanceRegistry.ts — registry queries
* src/src/data/substanceRanking.ts  — evidence ranking
* src/src/App.tsx               — the `results` computation (threshold override, triggers)

Modelling conventions: JavaScript numbers are modelled as rationals (ℚ),
JS `Set<string>` as `Finset String`, JS `Map` as an association list, and
nullable values as `Option`.  The module-level JSON reference datasets
(threshold bundle, RF catalog, substance registry, evidence table) are not
part of the engine code; functions that read them take the dataset as an
explicit parameter instead of a global.
-/

namespace Osteopo

/-- Source lookup.ts `highestReachedBand`: the highest reached band string. -/
def highestReachedBand (reached3 reached5 reached10 : Bool) : String :=
  if reached10 then ">=10%"
  else if reached5 then "5–<10%"
  else if reached3 then "3–<5%"
  else "<3%"

/-- Source rfSelection.ts `EPSILON = 1e-9`. -/
def EPSILON : ℚ := 1 / 1000000000

/-- Source rfSelection.ts `isThresholdReached(requiredFactor, multiplier)`:
`null` cell means reached; a numeric cell compares the multiplier with
epsilon tolerance.  Returns (reached, reason). -/
def isThresholdReached (requiredFactor : Option ℚ) (multiplier : ℚ) : Bool × String :=
  match requiredFactor with
  | Option.none => (true, "Leeres Tabellenfeld: Schwelle bereits ohne RF erreicht")
  | Option.some r => (decide (multiplier ≥ r - EPSILON), "Multiplikator vs. erforderlicher Faktor")

/-- Source App.tsx `results` (lines 256-264), one tier: the no-BMD baseline
override.  `usedBmd` is set in `results` exactly when a T-score was supplied;
`cell` is the tier's required-factor cell from the lookup. -/
def resultsTierReached (usedBmd : Bool) (multiplier : ℚ) (cell : Option ℚ) : Bool × String :=
  if usedBmd = false ∧ multiplier = 1 ∧ cell ≠ Option.none then
    (false, "Schwelle nicht erreicht (ohne RF)")
  else
    isThresholdReached cell multiplier

/-! T-score binning (src/src/data/lookup.ts `mapTscoreToBin`).  The source
throws on an empty bin list; the embedding returns `Option.none` there.  The
descending JS `sort((a, b) => b - a)` is modelled as an insertion sort with
the matching total relation. -/

/-- Source lookup.ts: `[...availableBins].sort((a, b) => b - a)`. -/
def sortBinsDesc (availableBins : List ℚ) : List ℚ :=
  List.insertionSort (fun a b => b ≤ a) availableBins

/-- Source lookup.ts `mapTscoreToBin`, rule 4: the scan over adjacent sorted
bins looking for `curr < tscore < prev`. -/
def findBetweenBin (tscore : ℚ) : List ℚ → Option ℚ
  | prev :: curr :: rest =>
    if tscore < prev ∧ tscore > curr then Option.some curr
    else findBetweenBin tscore (curr :: rest)
  | _ => Option.none

/-- Source lookup.ts `mapTscoreToBin(tscore, availableBins)`: exact match,
snap to best above the range, snap to worst below the range, else the worse
neighbor of the surrounding pair (with the unreachable-fallback to worst). -/
def mapTscoreToBin (tscore : ℚ) (availableBins : List ℚ) : Option ℚ :=
  match sortBinsDesc availableBins with
  | [] => Option.none
  | bestBin :: restBins =>
    let sortedBins := bestBin :: restBins
    let worstBin := sortedBins.getLastD bestBin
    if tscore ∈ sortedBins then Option.some tscore
    else if tscore > bestBin then Option.some bestBin
    else if tscore < worstBin then Option.some worstBin
    else
      match findBetweenBin tscore sortedBins with
      | Option.some curr => Option.some curr
      | Option.none => Option.some worstBin

instance : IsTotal ℚ (fun a b => b ≤ a) :=
  ⟨fun a b => le_total b a⟩

instance : IsTrans ℚ (fun a b => b ≤ a) :=
  ⟨fun _ _ _ hab hbc => le_trans hbc hab⟩

/-- Concrete bins for the C8 witness. -/
def demoBins : List ℚ := [1, 3, 5]

/-! Therapy derivation (src/src/data/therapy.ts and types.ts). -/

inductive TherapyStrategy where
  | none
  | consider_antiresorptive
  | antiresorptive
  | osteoanabolic_start
  deriving DecidableEq, Repr

inductive RiskBand where
  | lt3
  | from3lt5
  | from5lt10
  | ge10
  deriving DecidableEq, Repr, Fintype

structure GuidelineStatement where
  grade : String
  wording_de : String
  deriving DecidableEq, Repr

structure GuidelineStrength where
  DVO : GuidelineStatement
  DEGAM : GuidelineStatement
  deriving DecidableEq, Repr

structure TherapyPlan where
  strategy : TherapyStrategy
  label_de : String
  sequence_hint : Option String
  guideline_default : String
  guideline_strength : GuidelineStrength
  deviation_flag : Option String
  deriving DecidableEq, Repr

/-- The deviation-flag value used by therapy.ts. -/
def DEGAM_SOFTENING : String := "DEGAM_SOFTENING"

/-- Source therapy.ts `deriveTherapyPlan(riskBand, triggerPresent)`. -/
def deriveTherapyPlan (riskBand : RiskBand) (triggerPresent : Bool) : TherapyPlan :=
  match riskBand with
  | RiskBand.lt3 =>
    { strategy := TherapyStrategy.none
      label_de := "keine medikamentöse Therapie"
      sequence_hint := Option.none
      guideline_default := "DEGAM"
      guideline_strength :=
        { DVO := { grade := "-", wording_de := "keine spezifische medikamentöse Therapie" }
          DEGAM := { grade := "-", wording_de := "keine spezifische medikamentöse Therapie" } }
      deviation_flag := Option.none }
  | RiskBand.from3lt5 =>
    if !triggerPresent then
      { strategy := TherapyStrategy.none
        label_de := "keine medikamentöse Therapie"
        sequence_hint := Option.none
        guideline_default := "DEGAM"
        guideline_strength :=
          { DVO := { grade := "-", wording_de := "keine spezifische medikamentöse Therapie" }
            DEGAM := { grade := "-", wording_de := "keine spezifische medikamentöse Therapie" } }
        deviation_flag := Option.none }
    else
      { strategy := TherapyStrategy.consider_antiresorptive
        label_de := "medikamentöse Therapie kann erwogen werden"
        sequence_hint := Option.some "bei Entscheidung für Therapie: antiresorptiv"
        guideline_default := "DEGAM"
        guideline_strength :=
          { DVO := { grade := "0", wording_de := "kann erwogen werden (bei Triggern)" }
            DEGAM := { grade := "0", wording_de := "kann erwogen werden (bei Triggern)" } }
        deviation_flag := Option.none }
  | RiskBand.from5lt10 =>
    { strategy := TherapyStrategy.antiresorptive
      label_de := "antiresorptive Therapie empfohlen"
      sequence_hint := Option.some "Monotherapie antiresorptiv; Verlaufskontrolle"
      guideline_default := "DEGAM"
      guideline_strength :=
        { DVO := { grade := "A", wording_de := "antiresorptiv empfohlen" }
          DEGAM := { grade := "A", wording_de := "antiresorptiv empfohlen" } }
      deviation_flag := Option.none }
  | RiskBand.ge10 =>
    { strategy := TherapyStrategy.osteoanabolic_start
      label_de := "osteoanabole Starttherapie empfohlen"
      sequence_hint :=
        Option.some "zeitlich begrenzte osteoanabole Therapie, anschließend antiresorptive Erhaltung"
      guideline_default := "DEGAM"
      guideline_strength :=
        { DVO := { grade := "A", wording_de := "soll osteoanabol behandelt werden" }
          DEGAM := { grade := "B", wording_de := "sollte osteoanabol behandelt werden" } }
      deviation_flag := Option.some DEGAM_SOFTENING }

/-! Substance registry (src/src/data/substanceRegistry.ts).  The registry
JSON is a dataset; it appears here as the `registry` list parameter. -/

inductive TherapyClass where
  | osteoanabolic
  | antiresorptive
  deriving DecidableEq, Repr

structure SubstanceRegistryEntry where
  substance_id : String
  label_de : String
  therapy_class : TherapyClass
  active : Bool
  deriving DecidableEq, Repr

/-- Source substanceRegistry.ts `getSubstancesByTherapyClass(therapyClass, activeOnly)`. -/
def getSubstancesByTherapyClass (registry : List SubstanceRegistryEntry)
    (therapyClass : TherapyClass) (activeOnly : Bool) : List String :=
  (registry.filter (fun entry =>
      if entry.therapy_class ≠ therapyClass then false
      else if activeOnly && !entry.active then false
      else true)).map
    (fun entry => entry.substance_id)

/-- Source therapy.ts `getCandidateSubstances(strategy)`: maps strategy to a
therapy class, pulls active registry substances of that class, and for
`osteoanabolic_start` narrows to romosozumab and teriparatide. -/
def getCandidateSubstances (registry : List SubstanceRegistryEntry)
    (strategy : TherapyStrategy) : List String :=
  if strategy = TherapyStrategy.none then []
  else
    let therapyClass : TherapyClass :=
      if strategy = TherapyStrategy.osteoanabolic_start then TherapyClass.osteoanabolic
      else TherapyClass.antiresorptive
    let candidates := getSubstancesByTherapyClass registry therapyClass true
    if strategy = TherapyStrategy.osteoanabolic_start then
      candidates.filter (fun id => decide (id = "romosozumab" ∨ id = "teriparatide"))
    else candidates

/-! Demo constants used by witnesses. -/

def romosozumabId : String := "romosozumab"

def teriparatideId : String := "teriparatide"

def abaloparatideId : String := "abaloparatide"

def regRomosozumab : SubstanceRegistryEntry :=
  { substance_id := romosozumabId
    label_de := "Romosozumab"
    therapy_class := TherapyClass.osteoanabolic
    active := true }

def regTeriparatide : SubstanceRegistryEntry :=
  { substance_id := teriparatideId
    label_de := "Teriparatid"
    therapy_class := TherapyClass.osteoanabolic
    active := true }

def regAbaloparatide : SubstanceRegistryEntry :=
  { substance_id := abaloparatideId
    label_de := "Abaloparatid"
    therapy_class := TherapyClass.osteoanabolic
    active := true }

/-- A registry with three osteoanabolic substances, the third one active but
outside the hard-coded start-therapy pair. -/
def demoRegistry : List SubstanceRegistryEntry :=
  [regRomosozumab, regTeriparatide, regAbaloparatide]

/-! Risk-factor catalog and mutual-exclusion groups
(src/src/data/rfCatalog.ts and types.ts).  Optional clinical flags are
modelled as booleans (absent = false), matching the `=== true` checks of the
consumers. -/

structure RfFlags where
  imminent_rr : Bool
  strong_irreversible_A : Bool
  deriving DecidableEq, Repr

inductive RfGroup where
  | G1_STURZ
  | G2_RA_GC
  | G3_OTHER
  deriving DecidableEq, Repr

structure RiskFactor where
  rf_id : String
  label_de : String
  group : RfGroup
  rr_3y : ℚ
  included_in_risk_calc : Bool
  flags : RfFlags
  mutual_exclusion_group_id : Option String
  exclusion_mode : Option String
  deriving DecidableEq, Repr

structure MegEntry where
  rfIds : List String
  mode : String
  deriving DecidableEq, Repr

/-- Source types.ts `MegIndex`: the two JS `Map`s modelled as association
lists (`List.lookup` returns the first matching key, as `Map.get` does for
the unique-keyed maps `buildMegIndex` constructs). -/
structure MegIndex where
  megToRfs : List (String × MegEntry)
  rfToMeg : List (String × Option String)

/-- Source rfCatalog.ts `enforceMegRules(selectedRfIds, toggledRf, megIndex,
allRfs)`: deselecting removes the factor; selecting a factor in a
single-choice-optional MEG first removes every other member of that MEG;
otherwise the factor is just added.  (`allRfs` is an unused parameter in the
source as well.) -/
def enforceMegRules (selectedRfIds : Finset String) (toggledRf : RiskFactor)
    (megIndex : MegIndex) (allRfs : List RiskFactor) : Finset String :=
  let megId := (megIndex.rfToMeg.lookup toggledRf.rf_id).getD Option.none
  if toggledRf.rf_id ∈ selectedRfIds then
    selectedRfIds.erase toggledRf.rf_id
  else
    let afterRemoval :=
      match megId with
      | Option.none => selectedRfIds
      | Option.some m =>
        match megIndex.megToRfs.lookup m with
        | Option.none => selectedRfIds
        | Option.some megEntry =>
          if megEntry.mode = "single_choice_optional" then
            megEntry.rfIds.foldl
              (fun s otherRfId =>
                if otherRfId ≠ toggledRf.rf_id then s.erase otherRfId else s)
              selectedRfIds
          else selectedRfIds
    insert toggledRf.rf_id afterRemoval

/-! Reference-semantics model of `enforceMegRules` for the frame claim: JS
`Set` objects live in a heap of cells addressed by `Nat`; `new Set(x)`
allocates a fresh cell holding a copy, while `add`/`delete` mutate the
addressed cell in place. -/

structure SetHeap where
  next : Nat
  mem : Nat → Finset String

/-- Model of `new Set(h.mem r)`: allocate a fresh cell with a copy. -/
def newSetFrom (h : SetHeap) (r : Nat) : SetHeap × Nat :=
  (⟨h.next + 1, fun i => if i = h.next then h.mem r else h.mem i⟩, h.next)

/-- Model of `set.delete(x)` on the cell `r`. -/
def heapErase (h : SetHeap) (r : Nat) (x : String) : SetHeap :=
  ⟨h.next, fun i => if i = r then (h.mem i).erase x else h.mem i⟩

/-- Model of `set.add(x)` on the cell `r`. -/
def heapInsert (h : SetHeap) (r : Nat) (x : String) : SetHeap :=
  ⟨h.next, fun i => if i = r then insert x (h.mem i) else h.mem i⟩

/-- Model of `set.has(x)` on the cell `r`. -/
def heapHas (h : SetHeap) (r : Nat) (x : String) : Bool :=
  decide (x ∈ h.mem r)

/-- Source rfCatalog.ts `enforceMegRules`, with the JS `Set` operations made
explicit on a heap: `const updated = new Set(selectedRfIds)` allocates a new
cell, and every later `delete`/`add` targets only that cell.  Returns the
final heap and the reference to the returned set. -/
def enforceMegRulesRef (h : SetHeap) (selectedRfIds : Nat) (toggledRf : RiskFactor)
    (megIndex : MegIndex) (allRfs : List RiskFactor) : SetHeap × Nat :=
  let alloc := newSetFrom h selectedRfIds
  let h1 := alloc.1
  let updated := alloc.2
  let megId := (megIndex.rfToMeg.lookup toggledRf.rf_id).getD Option.none
  let isCurrentlySelected := heapHas h1 updated toggledRf.rf_id
  let h2 :=
    if isCurrentlySelected then
      heapErase h1 updated toggledRf.rf_id
    else
      let h3 :=
        match megId with
        | Option.none => h1
        | Option.some m =>
          match megIndex.megToRfs.lookup m with
          | Option.none => h1
          | Option.some megEntry =>
            if megEntry.mode = "single_choice_optional" then
              megEntry.rfIds.foldl
                (fun hAcc otherRfId =>
                  if otherRfId ≠ toggledRf.rf_id then heapErase hAcc updated otherRfId
                  else hAcc)
                h1
            else h1
      heapInsert h3 updated toggledRf.rf_id
  (h2, updated)

/-! Demo catalog constants used by the MEG witnesses. -/

def rfIdFallA : String := "rf_fall_a"

def rfIdFallB : String := "rf_fall_b"

def megIdFall : String := "MEG_FALL"

def singleChoiceOptionalMode : String := "single_choice_optional"

def demoRfFallB : RiskFactor :=
  { rf_id := rfIdFallB
    label_de := "Sturz B"
    group := RfGroup.G1_STURZ
    rr_3y := 2
    included_in_risk_calc := true
    flags := { imminent_rr := false, strong_irreversible_A := false }
    mutual_exclusion_group_id := Option.some megIdFall
    exclusion_mode := Option.some singleChoiceOptionalMode }

def demoMegIndex : MegIndex :=
  { megToRfs := [(megIdFall, { rfIds := [rfIdFallA, rfIdFallB], mode := singleChoiceOptionalMode })]
    rfToMeg := [(rfIdFallA, Option.some megIdFall), (rfIdFallB, Option.some megIdFall)] }

def demoSelectionFall : Finset String := {rfIdFallA}

def demoHeap : SetHeap :=
  ⟨1, fun _ => demoSelectionFall⟩

/-! Risk-factor selection and multiplier (src/src/data/rfSelection.ts), and
the trigger scan of App.tsx `results`. -/

structure SelectedRfInfo where
  rf : RiskFactor
  poolSource : String
  deriving DecidableEq, Repr

/-- Pool-source tags used by `selectTop2RiskFactors`. -/
def poolSourceG1 : String := "G1_STURZ"

def poolSourceG2 : String := "G2_RA_GC"

def poolSourceG3_1 : String := "G3_OTHER_1"

def poolSourceG3_2 : String := "G3_OTHER_2"

/-- Source rfSelection.ts: the JS
`reduce((best, current) => current.rr_3y > best.rr_3y ? current : best)`
over a group (first element is the initial accumulator; `none` on the empty
group, where the source guards with `length > 0`). -/
def bestByRr : List RiskFactor → Option RiskFactor
  | [] => Option.none
  | h :: t =>
    Option.some
      (t.foldl (fun best current => if current.rr_3y > best.rr_3y then current else best) h)

/-- Source rfSelection.ts `selectTop2RiskFactors(selectedRfIds, allRfs)`:
strongest factor per exclusive group, up to two strongest from the other
group, pooled and cut to the overall top two.  The two descending JS
`sort`s are modelled as insertion sorts with the same comparators. -/
def selectTop2RiskFactors (selectedRfIds : Finset String) (allRfs : List RiskFactor) :
    List SelectedRfInfo :=
  let selectedRfs := allRfs.filter (fun rf => decide (rf.rf_id ∈ selectedRfIds))
  if selectedRfs = [] then []
  else
    let g1Rfs := selectedRfs.filter (fun rf => decide (rf.group = RfGroup.G1_STURZ))
    let g2Rfs := selectedRfs.filter (fun rf => decide (rf.group = RfGroup.G2_RA_GC))
    let g3Rfs := selectedRfs.filter (fun rf => decide (rf.group = RfGroup.G3_OTHER))
    let best_g1 := bestByRr g1Rfs
    let best_g2 := bestByRr g2Rfs
    let sorted_g3 := List.insertionSort (fun a b => b.rr_3y ≤ a.rr_3y) g3Rfs
    let g3_1 := sorted_g3.head?
    let g3_2 := sorted_g3[1]?
    let pool : List (RiskFactor × String) :=
      (match best_g1 with
        | Option.some rf => [(rf, poolSourceG1)]
        | Option.none => []) ++
      (match best_g2 with
        | Option.some rf => [(rf, poolSourceG2)]
        | Option.none => []) ++
      (match g3_1 with
        | Option.some rf => [(rf, poolSourceG3_1)]
        | Option.none => []) ++
      (match g3_2 with
        | Option.some rf => [(rf, poolSourceG3_2)]
        | Option.none => [])
    let sortedPool := List.insertionSort (fun a b => b.1.rr_3y ≤ a.1.rr_3y) pool
    (sortedPool.take 2).map (fun item => { rf := item.1, poolSource := item.2 })

/-- Source rfSelection.ts `computeCombinedMultiplier(chosenRfs)`. -/
def computeCombinedMultiplier (chosenRfs : List SelectedRfInfo) : ℚ :=
  match chosenRfs with
  | [] => 1
  | [single] => single.rf.rr_3y
  | first :: second :: _ => first.rf.rr_3y * second.rf.rr_3y

/-- Source rfCatalog.ts `getRiskFactorsForCalculation(catalog)`. -/
def getRiskFactorsForCalculation (catalog : List RiskFactor) : List RiskFactor :=
  catalog.filter (fun rf => rf.included_in_risk_calc)

/-- Source rfCatalog.ts `getAllRiskFactors(catalog)`. -/
def getAllRiskFactors (catalog : List RiskFactor) : List RiskFactor :=
  catalog

/-- Source App.tsx `availableRfs`: the calculation-eligible catalog slice
used for top-2 selection and the multiplier. -/
def availableRfs (catalog : List RiskFactor) : List RiskFactor :=
  getRiskFactorsForCalculation catalog

/-- Source App.tsx `results` (lines 272-283): trigger detection over all
selected factors.  Returns (imminent, strongIrreversibleA, triggerPresent). -/
def resultsTriggers (catalog : List RiskFactor) (selectedRfIds : Finset String) :
    Bool × Bool × Bool :=
  let allRfs := getAllRiskFactors catalog
  let selectedRfs := allRfs.filter (fun rf => decide (rf.rf_id ∈ selectedRfIds))
  let imminent := selectedRfs.any (fun rf => rf.flags.imminent_rr)
  let strongIrreversibleA := selectedRfs.any (fun rf => rf.flags.strong_irreversible_A)
  (imminent, strongIrreversibleA, imminent || strongIrreversibleA)

/-! Substance evidence ranking (src/src/data/substanceRanking.ts and
evidenceTable.ts).  The evidence JSON is a dataset; it appears here as the
`evidenceTable` list parameter. -/

inductive EvidenceLevel where
  | A
  | B
  | C
  deriving DecidableEq, Repr

structure FractureEfficacy where
  hip : Bool
  vertebral : Bool
  deriving DecidableEq, Repr

structure EvidenceEntry where
  substance_id : String
  label_de : String
  therapy_class : TherapyClass
  evidence_level : EvidenceLevel
  fracture_efficacy : FractureEfficacy
  evidence_note_de : String
  source_refs : List String
  deriving DecidableEq, Repr

structure RankedUi where
  evidenceChip : String
  efficacyHint : String
  note : Option String
  sourceRefs : Option (List String)
  deriving DecidableEq, Repr

structure RankedSubstance where
  substance_id : String
  evidence : Option EvidenceEntry
  ui : RankedUi
  deriving DecidableEq, Repr

/-- Source evidenceTable.ts `getEvidenceFor(substanceId)`: lookup in the
memoized id→entry map, `null` when missing (the warning log is dropped).  The
map is built by `forEach`/`set`, so a duplicated id keeps the *last* entry;
hence the lookup searches the reversed list. -/
def getEvidenceFor (evidenceTable : List EvidenceEntry) (substanceId : String) :
    Option EvidenceEntry :=
  evidenceTable.reverse.find? (fun entry => entry.substance_id == substanceId)

/-- Source substanceRanking.ts `getEvidenceLevelOrder` (A 0, B 1, C 2, else 3). -/
def getEvidenceLevelOrder : Option EvidenceLevel → Nat
  | Option.some EvidenceLevel.A => 0
  | Option.some EvidenceLevel.B => 1
  | Option.some EvidenceLevel.C => 2
  | _ => 3

def evidenceLevelText : EvidenceLevel → String
  | EvidenceLevel.A => "A"
  | EvidenceLevel.B => "B"
  | EvidenceLevel.C => "C"

/-- Source substanceRanking.ts `formatEvidenceChip`. -/
def formatEvidenceChip : Option EvidenceLevel → String
  | Option.none => "Evidenz unklar"
  | Option.some level => "Evidenz " ++ evidenceLevelText level

/-- Source substanceRanking.ts `formatEfficacyHint`. -/
def formatEfficacyHint : Option FractureEfficacy → String
  | Option.none => "unklar"
  | Option.some efficacy =>
    if efficacy.hip && efficacy.vertebral then "Hüfte + Wirbel"
    else if efficacy.vertebral then "Wirbel"
    else if efficacy.hip then "Hüfte"
    else "unklar"

/-- Source substanceRanking.ts `rankSubstancesByEvidence`, the map step: one
candidate id with its evidence lookup and pre-computed UI fields. -/
def rankedEntry (evidenceTable : List EvidenceEntry) (substanceId : String) :
    RankedSubstance :=
  let evidence := getEvidenceFor evidenceTable substanceId
  { substance_id := substanceId
    evidence := evidence
    ui :=
      { evidenceChip := formatEvidenceChip (evidence.map (fun e => e.evidence_level))
        efficacyHint := formatEfficacyHint (evidence.map (fun e => e.fracture_efficacy))
        note := evidence.map (fun e => e.evidence_note_de)
        sourceRefs := evidence.map (fun e => e.source_refs) } }

/-- The comparator's accessor `x.evidence?.evidence_level ?? null`. -/
def rsLevel (a : RankedSubstance) : Option EvidenceLevel :=
  a.evidence.map (fun e => e.evidence_level)

/-- The comparator's accessor `x.evidence?.fracture_efficacy.hip ?? false`. -/
def rsHip (a : RankedSubstance) : Bool :=
  (a.evidence.map (fun e => e.fracture_efficacy.hip)).getD false

/-- The comparator's accessor `x.evidence?.fracture_efficacy.vertebral ?? false`. -/
def rsVert (a : RankedSubstance) : Bool :=
  (a.evidence.map (fun e => e.fracture_efficacy.vertebral)).getD false

/-- Model of `a.localeCompare(b)`: alphabetical three-way comparison. -/
def strCompareInt (a b : String) : Int :=
  if a < b then -1 else if b < a then 1 else 0

/-- Source substanceRanking.ts: the 4-key sort comparator (negative means `a`
ranks before `b`). -/
def rankCompare (a b : RankedSubstance) : Int :=
  let levelDiff : Int :=
    (getEvidenceLevelOrder (rsLevel a) : Int) - (getEvidenceLevelOrder (rsLevel b) : Int)
  if levelDiff ≠ 0 then levelDiff
  else if rsHip a ≠ rsHip b then (if rsHip b then 1 else -1)
  else if rsVert a ≠ rsVert b then (if rsVert b then 1 else -1)
  else strCompareInt a.substance_id b.substance_id

/-- The sort relation induced by the comparator: `a` stays before `b` exactly
when the comparator is nonpositive. -/
def rankLE (a b : RankedSubstance) : Prop :=
  rankCompare a b ≤ 0

instance : DecidableRel rankLE :=
  fun a b => show Decidable (rankCompare a b ≤ 0) from inferInstance

/-- Source substanceRanking.ts `rankSubstancesByEvidence(allowedSubstances)`:
map each id to its annotated entry, then sort by the comparator.  The JS
`Array.sort` is modelled as an insertion sort with respect to `rankLE`; the
ranking theorems show `rankLE` is total, so any comparator-correct sort
produces this very list. -/
def rankSubstancesByEvidence (evidenceTable : List EvidenceEntry)
    (allowedSubstances : List String) : List RankedSubstance :=
  List.insertionSort rankLE (allowedSubstances.map (rankedEntry evidenceTable))

/-- Candidate ids for the ranking witness. -/
def subIdX : String := "x_sub"

def subIdY : String := "y_sub"

/-! Demo catalog used by the trigger-scan witness. -/

def rfIdCalc : String := "rf_calc"

def rfIdTriggerOnly : String := "rf_trigger_only"

def demoRfCalc : RiskFactor :=
  { rf_id := rfIdCalc
    label_de := "Rechen-RF"
    group := RfGroup.G3_OTHER
    rr_3y := 2
    included_in_risk_calc := true
    flags := { imminent_rr := false, strong_irreversible_A := false }
    mutual_exclusion_group_id := Option.none
    exclusion_mode := Option.none }

/-- A selected factor excluded from the multiplier but carrying the
imminent-risk flag. -/
def demoRfTriggerOnly : RiskFactor :=
  { rf_id := rfIdTriggerOnly
    label_de := "Trigger-RF"
    group := RfGroup.G3_OTHER
    rr_3y := 0
    included_in_risk_calc := false
    flags := { imminent_rr := true, strong_irreversible_A := false }
    mutual_exclusion_group_id := Option.none
    exclusion_mode := Option.none }

def demoCatalog : List RiskFactor := [demoRfCalc, demoRfTriggerOnly]

def demoSelection : Finset String := {rfIdCalc, rfIdTriggerOnly}

/-- C5: `highestReachedBand` returns the ">=10%" band whenever the 10% tier is
reached, regardless of the 3% and 5% booleans; otherwise "5–<10%" when the 5%
tier is reached; otherwise "3–<5%" when the 3% tier is reached; otherwise
"<3%". -/
theorem highestReachedBand_monotone_cases (r3 r5 : Bool) :
    highestReachedBand r3 r5 true = ">=10%" ∧
    highestReachedBand r3 true false = "5–<10%" ∧
    highestReachedBand true false false = "3–<5%" ∧
    highestReachedBand false false false = "<3%" := by
  cases r3 <;> cases r5 <;> simp [highestReachedBand]

/-- C2: `isThresholdReached` treats an absent cell as reached for every
multiplier; for a numeric cell `r` it reports reached exactly when
`multiplier ≥ r - 1e-9`; in particular a multiplier exactly equal to
`r - 1e-10` is reported as reached. -/
theorem isThresholdReached_epsilon (r m : ℚ) :
    (isThresholdReached Option.none m).1 = true ∧
    ((isThresholdReached (Option.some r) m).1 = true ↔ m ≥ r - EPSILON) ∧
    (isThresholdReached (Option.some r) (r - 1 / 10000000000)).1 = true := by
  refine ⟨rfl, ?_, ?_⟩
  · simp [isThresholdReached]
  · simp only [isThresholdReached, decide_eq_true_eq, EPSILON, ge_iff_le]
    linarith

/-- C1: in the App `results` computation, a tier with a numeric cell is forced
to "not reached" when no T-score was supplied and the combined multiplier is
exactly 1.0; in every other case the tier is evaluated by the generic
epsilon-tolerant rule `isThresholdReached`. -/
theorem resultsTierReached_override (usedBmd : Bool) (m : ℚ) (cell : Option ℚ) :
    (usedBmd = false → m = 1 → ∀ r, cell = Option.some r →
      (resultsTierReached usedBmd m cell).1 = false) ∧
    (¬(usedBmd = false ∧ m = 1 ∧ cell ≠ Option.none) →
      resultsTierReached usedBmd m cell = isThresholdReached cell m) := by
  constructor
  · intro hb hm r hc
    simp [resultsTierReached, hb, hm, hc]
  · intro h
    rw [resultsTierReached, if_neg h]

/-- Witness for C1: with no T-score, multiplier exactly 1 and a numeric cell
of 1 (where the generic rule would report reached, since 1 ≥ 1 − ε), the tier
is reported as not reached. -/
theorem resultsTierReached_override_witness :
    (resultsTierReached false 1 (Option.some 1)).1 = false ∧
    (isThresholdReached (Option.some 1) 1).1 = true :=
  ⟨(resultsTierReached_override false 1 (Option.some 1)).1 rfl rfl 1 rfl, by
    norm_num [isThresholdReached, EPSILON]⟩

/-- C3: `deriveTherapyPlan` realizes the five-state table: band <3% → strategy
none with grades "-"/"-"; band 3–<5% without trigger → none with "-"/"-";
band 3–<5% with trigger → consider-antiresorptive with DVO "0" and DEGAM "0";
band 5–<10% (any trigger) → antiresorptive with DVO "A" and DEGAM "A"; band
≥10% (any trigger) → start-osteoanabolic with DVO "A", DEGAM "B"; and the
DEGAM-softening deviation flag is set exactly in the ≥10% state. -/
theorem deriveTherapyPlan_table (t : Bool) :
    ((deriveTherapyPlan RiskBand.lt3 t).strategy = TherapyStrategy.none ∧
      (deriveTherapyPlan RiskBand.lt3 t).guideline_strength.DVO.grade = "-" ∧
      (deriveTherapyPlan RiskBand.lt3 t).guideline_strength.DEGAM.grade = "-") ∧
    ((deriveTherapyPlan RiskBand.from3lt5 false).strategy = TherapyStrategy.none ∧
      (deriveTherapyPlan RiskBand.from3lt5 false).guideline_strength.DVO.grade = "-" ∧
      (deriveTherapyPlan RiskBand.from3lt5 false).guideline_strength.DEGAM.grade = "-") ∧
    ((deriveTherapyPlan RiskBand.from3lt5 true).strategy =
        TherapyStrategy.consider_antiresorptive ∧
      (deriveTherapyPlan RiskBand.from3lt5 true).guideline_strength.DVO.grade = "0" ∧
      (deriveTherapyPlan RiskBand.from3lt5 true).guideline_strength.DEGAM.grade = "0") ∧
    ((deriveTherapyPlan RiskBand.from5lt10 t).strategy = TherapyStrategy.antiresorptive ∧
      (deriveTherapyPlan RiskBand.from5lt10 t).guideline_strength.DVO.grade = "A" ∧
      (deriveTherapyPlan RiskBand.from5lt10 t).guideline_strength.DEGAM.grade = "A") ∧
    ((deriveTherapyPlan RiskBand.ge10 t).strategy = TherapyStrategy.osteoanabolic_start ∧
      (deriveTherapyPlan RiskBand.ge10 t).guideline_strength.DVO.grade = "A" ∧
      (deriveTherapyPlan RiskBand.ge10 t).guideline_strength.DEGAM.grade = "B") ∧
    (∀ b u, (deriveTherapyPlan b u).deviation_flag =
        if b = RiskBand.ge10 then Option.some DEGAM_SOFTENING else Option.none) := by
  cases t <;> decide

/-- C4: `getCandidateSubstances` returns no candidates for strategy none;
for the two antiresorptive strategies it returns exactly the ids of active
registry substances of class antiresorptive; and for `osteoanabolic_start`
every returned id is romosozumab or teriparatide, so any third osteoanabolic
registry substance is excluded regardless of its activity flag. -/
theorem getCandidateSubstances_spec (registry : List SubstanceRegistryEntry) :
    getCandidateSubstances registry TherapyStrategy.none = [] ∧
    getCandidateSubstances registry TherapyStrategy.antiresorptive =
      getSubstancesByTherapyClass registry TherapyClass.antiresorptive true ∧
    getCandidateSubstances registry TherapyStrategy.consider_antiresorptive =
      getSubstancesByTherapyClass registry TherapyClass.antiresorptive true ∧
    (∀ s, s ∈ getSubstancesByTherapyClass registry TherapyClass.antiresorptive true ↔
      ∃ entry, entry ∈ registry ∧ entry.substance_id = s ∧
        entry.therapy_class = TherapyClass.antiresorptive ∧ entry.active = true) ∧
    (∀ s, s ∈ getCandidateSubstances registry TherapyStrategy.osteoanabolic_start →
      s = romosozumabId ∨ s = teriparatideId) := by
  refine ⟨rfl, rfl, rfl, ?_, ?_⟩
  · intro s
    simp only [getSubstancesByTherapyClass, List.mem_map, List.mem_filter]
    constructor
    · rintro ⟨entry, ⟨hmem, hcond⟩, hid⟩
      refine ⟨entry, hmem, hid, ?_⟩
      by_cases hc : entry.therapy_class = TherapyClass.antiresorptive
      · refine ⟨hc, ?_⟩
        by_cases ha : entry.active = true
        · exact ha
        · simp [hc, Bool.not_eq_true] at hcond
          simp [hcond] at ha
      · simp [hc] at hcond
    · rintro ⟨entry, hmem, hid, hc, ha⟩
      exact ⟨entry, ⟨hmem, by simp [hc, ha]⟩, hid⟩
  · intro s hs
    have hrw : getCandidateSubstances registry TherapyStrategy.osteoanabolic_start =
        (getSubstancesByTherapyClass registry TherapyClass.osteoanabolic true).filter
          (fun id => decide (id = "romosozumab" ∨ id = "teriparatide")) := rfl
    rw [hrw, List.mem_filter] at hs
    simpa [romosozumabId, teriparatideId] using hs.2

/-- Witness for C4: on a registry with three active osteoanabolic substances
(romosozumab, teriparatide, abaloparatide), the candidate list for
`osteoanabolic_start` contains romosozumab, and the theorem confirms every
candidate is romosozumab or teriparatide (so abaloparatide is excluded). -/
theorem getCandidateSubstances_spec_witness :
    romosozumabId ∈ getCandidateSubstances demoRegistry TherapyStrategy.osteoanabolic_start ∧
    (romosozumabId = romosozumabId ∨ romosozumabId = teriparatideId) ∧
    abaloparatideId ∉ getCandidateSubstances demoRegistry TherapyStrategy.osteoanabolic_start :=
  ⟨by decide,
    (getCandidateSubstances_spec demoRegistry).2.2.2.2 romosozumabId (by decide),
    by decide⟩

/-- Membership after folding `erase` over a list of ids, skipping the toggled
id (the removal loop of `enforceMegRules`). -/
lemma mem_foldl_erase (tid : String) (l : List String) (s : Finset String) (x : String) :
    (x ∈ l.foldl (fun s otherRfId => if otherRfId ≠ tid then s.erase otherRfId else s) s) ↔
      x ∈ s ∧ (x ≠ tid → x ∉ l) := by
  induction l generalizing s with
  | nil => simp
  | cons o t ih =>
    simp only [List.foldl_cons]
    rw [ih]
    rcases eq_or_ne o tid with ho | ho
    · subst ho
      simp only [ne_eq, not_true_eq_false, if_neg, List.mem_cons, ite_false]
      constructor
      · rintro ⟨hs, hnt⟩
        exact ⟨hs, fun hx hmem => hmem.elim (fun he => hx he) (hnt hx)⟩
      · rintro ⟨hs, hnt⟩
        exact ⟨hs, fun hx hm => hnt hx (Or.inr hm)⟩
    · simp only [ne_eq, ho, not_false_eq_true, if_pos, ite_true, Finset.mem_erase,
        List.mem_cons]
      constructor
      · rintro ⟨⟨hxo, hs⟩, hnt⟩
        exact ⟨hs, fun hx hm => hm.elim (fun he => hxo he) (hnt hx)⟩
      · rintro ⟨hs, hnt⟩
        refine ⟨⟨?_, hs⟩, fun hx hm => hnt hx (Or.inr hm)⟩
        intro he
        subst he
        exact hnt ho (Or.inl rfl)

/-- C6: `enforceMegRules` — deselecting a selected factor just removes it;
selecting a factor of a single-choice-optional MEG removes every other MEG
member before adding it, so the result contains at most one member of that
MEG; a factor outside any MEG, or in a MEG with a different mode, is added
with no other change. -/
theorem enforceMegRules_spec (selected : Finset String) (toggledRf : RiskFactor)
    (megIndex : MegIndex) (allRfs : List RiskFactor) :
    (toggledRf.rf_id ∈ selected →
      enforceMegRules selected toggledRf megIndex allRfs = selected.erase toggledRf.rf_id) ∧
    (toggledRf.rf_id ∉ selected →
      ∀ m megEntry,
        (megIndex.rfToMeg.lookup toggledRf.rf_id).getD Option.none = Option.some m →
        megIndex.megToRfs.lookup m = Option.some megEntry →
        megEntry.mode = "single_choice_optional" →
        toggledRf.rf_id ∈ enforceMegRules selected toggledRf megIndex allRfs ∧
        (∀ x ∈ enforceMegRules selected toggledRf megIndex allRfs,
          x ∈ megEntry.rfIds → x = toggledRf.rf_id) ∧
        enforceMegRules selected toggledRf megIndex allRfs ⊆
          insert toggledRf.rf_id selected) ∧
    (toggledRf.rf_id ∉ selected →
      (megIndex.rfToMeg.lookup toggledRf.rf_id).getD Option.none = Option.none →
      enforceMegRules selected toggledRf megIndex allRfs = insert toggledRf.rf_id selected) ∧
    (toggledRf.rf_id ∉ selected →
      ∀ m megEntry,
        (megIndex.rfToMeg.lookup toggledRf.rf_id).getD Option.none = Option.some m →
        megIndex.megToRfs.lookup m = Option.some megEntry →
        megEntry.mode ≠ "single_choice_optional" →
        enforceMegRules selected toggledRf megIndex allRfs =
          insert toggledRf.rf_id selected) := by
  refine ⟨?_, ?_, ?_, ?_⟩
  · intro hmem
    simp only [enforceMegRules, if_pos hmem]
  · intro hnot m megEntry hm1 hm2 hmode
    have hres : enforceMegRules selected toggledRf megIndex allRfs =
        insert toggledRf.rf_id
          (megEntry.rfIds.foldl
            (fun s otherRfId => if otherRfId ≠ toggledRf.rf_id then s.erase otherRfId else s)
            selected) := by
      simp only [enforceMegRules, if_neg hnot, hm1, hm2, if_pos hmode]
    rw [hres]
    refine ⟨Finset.mem_insert_self _ _, ?_, ?_⟩
    · intro x hx hxl
      rcases Finset.mem_insert.mp hx with hx | hx
      · exact hx
      · rcases (mem_foldl_erase toggledRf.rf_id megEntry.rfIds selected x).mp hx with ⟨_, hnt⟩
        by_contra hne
        exact hnt hne hxl
    · intro x hx
      rcases Finset.mem_insert.mp hx with hx | hx
      · exact Finset.mem_insert.mpr (Or.inl hx)
      · exact Finset.mem_insert.mpr
          (Or.inr ((mem_foldl_erase toggledRf.rf_id megEntry.rfIds selected x).mp hx).1)
  · intro hnot hm1
    simp only [enforceMegRules, if_neg hnot, hm1]
  · intro hnot m megEntry hm1 hm2 hmode
    simp only [enforceMegRules, if_neg hnot, hm1, hm2, if_neg hmode]

/-- Witness for C6: selecting the second MEG member removes the first one. -/
theorem enforceMegRules_spec_witness :
    demoRfFallB.rf_id ∉ demoSelectionFall ∧
    demoRfFallB.rf_id ∈ enforceMegRules demoSelectionFall demoRfFallB demoMegIndex [] ∧
    rfIdFallA ∉ enforceMegRules demoSelectionFall demoRfFallB demoMegIndex [] :=
  ⟨by decide,
    ((enforceMegRules_spec demoSelectionFall demoRfFallB demoMegIndex []).2.1 (by decide)
        megIdFall { rfIds := [rfIdFallA, rfIdFallB], mode := singleChoiceOptionalMode }
        (by decide) (by decide) rfl).1,
    by decide⟩

/-- The heap cell `i ≠ h.next` is unchanged by the fresh allocation. -/
lemma newSetFrom_mem_ne (h : SetHeap) (r i : Nat) (hi : i ≠ h.next) :
    ((newSetFrom h r).1).mem i = h.mem i := by
  simp [newSetFrom, hi]

/-- `heapErase` leaves every other cell unchanged. -/
lemma heapErase_mem_ne (g : SetHeap) (u : Nat) (x : String) (i : Nat) (hi : i ≠ u) :
    (heapErase g u x).mem i = g.mem i := by
  simp [heapErase, hi]

/-- `heapInsert` leaves every other cell unchanged. -/
lemma heapInsert_mem_ne (g : SetHeap) (u : Nat) (x : String) (i : Nat) (hi : i ≠ u) :
    (heapInsert g u x).mem i = g.mem i := by
  simp [heapInsert, hi]

/-- The removal loop of `enforceMegRulesRef` only writes the cell `updated`. -/
lemma foldl_heapErase_mem_ne (updated i : Nat) (hi : i ≠ updated) (tid : String)
    (l : List String) (g : SetHeap) :
    (l.foldl
      (fun hAcc otherRfId =>
        if otherRfId ≠ tid then heapErase hAcc updated otherRfId else hAcc)
      g).mem i = g.mem i := by
  induction l generalizing g with
  | nil => rfl
  | cons o t ih =>
    simp only [List.foldl_cons]
    rw [ih]
    rcases eq_or_ne o tid with ho | ho
    · simp [ho]
    · simp [ho, heapErase_mem_ne _ _ _ _ hi]

/-- C10: `enforceMegRulesRef` never writes the caller's set: for every
allocated cell `r`, the cell's contents after the call equal its contents
before, and the returned set is a different, freshly constructed cell. -/
theorem enforceMegRulesRef_frame (h : SetHeap) (r : Nat) (toggledRf : RiskFactor)
    (megIndex : MegIndex) (allRfs : List RiskFactor) (hr : r < h.next) :
    ((enforceMegRulesRef h r toggledRf megIndex allRfs).1).mem r = h.mem r ∧
    (enforceMegRulesRef h r toggledRf megIndex allRfs).2 ≠ r := by
  have hne : r ≠ h.next := Nat.ne_of_lt hr
  constructor
  · show (enforceMegRulesRef h r toggledRf megIndex allRfs).1.mem r = h.mem r
    simp only [enforceMegRulesRef]
    rw [show (newSetFrom h r).2 = h.next from rfl]
    split
    · rw [heapErase_mem_ne _ _ _ _ hne, newSetFrom_mem_ne _ _ _ hne]
    · rw [heapInsert_mem_ne _ _ _ _ hne]
      split
      · rw [newSetFrom_mem_ne _ _ _ hne]
      · split
        · rw [newSetFrom_mem_ne _ _ _ hne]
        · split
          · rw [foldl_heapErase_mem_ne _ _ hne, newSetFrom_mem_ne _ _ _ hne]
          · rw [newSetFrom_mem_ne _ _ _ hne]
  · exact fun e => hne e.symm

/-- Witness for C10: on a concrete heap whose cell 0 holds the demo
selection, the caller's cell is unchanged by the call. -/
theorem enforceMegRulesRef_frame_witness :
    0 < demoHeap.next ∧
    ((enforceMegRulesRef demoHeap 0 demoRfFallB demoMegIndex []).1).mem 0 = demoHeap.mem 0 :=
  ⟨Nat.zero_lt_one,
    (enforceMegRulesRef_frame demoHeap 0 demoRfFallB demoMegIndex [] Nat.zero_lt_one).1⟩

/-- The JS `reduce` pick of the strongest factor stays inside the group. -/
lemma foldl_pick_mem :
    ∀ (t : List RiskFactor) (b : RiskFactor),
      t.foldl (fun best current => if current.rr_3y > best.rr_3y then current else best) b = b ∨
      t.foldl (fun best current => if current.rr_3y > best.rr_3y then current else best) b ∈ t := by
  intro t
  induction t with
  | nil => intro b; exact Or.inl rfl
  | cons c t ih =>
    intro b
    simp only [List.foldl_cons]
    rcases ih (if c.rr_3y > b.rr_3y then c else b) with h | h
    · rw [h]
      by_cases hc : c.rr_3y > b.rr_3y
      · exact Or.inr (by simp [hc])
      · exact Or.inl (by simp [hc])
    · exact Or.inr (List.mem_cons_of_mem _ h)

/-- `bestByRr` returns a member of its group. -/
lemma bestByRr_mem {l : List RiskFactor} {rf : RiskFactor}
    (h : bestByRr l = Option.some rf) : rf ∈ l := by
  cases l with
  | nil => cases h
  | cons h0 t =>
    simp only [bestByRr, Option.some.injEq] at h
    rcases foldl_pick_mem t h0 with h' | h' <;> rw [← h]
    · rw [h']; exact List.mem_cons_self _ _
    · exact List.mem_cons_of_mem _ h'

/-- Every factor chosen by `selectTop2RiskFactors` comes from the selected
slice of `allRfs`. -/
lemma mem_selectTop2 (sel : Finset String) (rfs : List RiskFactor) (info : SelectedRfInfo)
    (h : info ∈ selectTop2RiskFactors sel rfs) :
    info.rf ∈ rfs.filter (fun rf => decide (rf.rf_id ∈ sel)) := by
  simp only [selectTop2RiskFactors] at h
  set selectedRfs := rfs.filter (fun rf => decide (rf.rf_id ∈ sel)) with hsel
  by_cases hemp : selectedRfs = []
  · rw [if_pos hemp] at h
    cases h
  · rw [if_neg hemp] at h
    obtain ⟨item, hitem, hinfo⟩ := List.mem_map.mp h
    have hpool := (List.perm_insertionSort
        (fun a b : RiskFactor × String => b.1.rr_3y ≤ a.1.rr_3y) _).subset
      (List.mem_of_mem_take hitem)
    have hrf : info.rf = item.1 := by rw [← hinfo]
    rw [hrf]
    have hg1 : ∀ x ∈ selectedRfs.filter (fun rf => decide (rf.group = RfGroup.G1_STURZ)),
        x ∈ selectedRfs := fun x hx => List.mem_of_mem_filter hx
    have hg2 : ∀ x ∈ selectedRfs.filter (fun rf => decide (rf.group = RfGroup.G2_RA_GC)),
        x ∈ selectedRfs := fun x hx => List.mem_of_mem_filter hx
    have hg3 : ∀ x ∈ selectedRfs.filter (fun rf => decide (rf.group = RfGroup.G3_OTHER)),
        x ∈ selectedRfs := fun x hx => List.mem_of_mem_filter hx
    have hg3sort : ∀ x ∈ List.insertionSort (fun a b : RiskFactor => b.rr_3y ≤ a.rr_3y)
        (selectedRfs.filter (fun rf => decide (rf.group = RfGroup.G3_OTHER))),
        x ∈ selectedRfs := fun x hx => hg3 x ((List.mem_insertionSort _).mp hx)
    rcases List.mem_append.mp hpool with hp | hp
    · rcases List.mem_append.mp hp with hp' | hp'
      · rcases List.mem_append.mp hp' with hp'' | hp''
        · rcases hb : bestByRr (selectedRfs.filter
              (fun rf => decide (rf.group = RfGroup.G1_STURZ))) with _ | rfb
          · rw [hb] at hp''; cases hp''
          · rw [hb] at hp''
            rcases List.mem_singleton.mp hp'' with rfl
            exact hg1 _ (bestByRr_mem hb)
        · rcases hb : bestByRr (selectedRfs.filter
              (fun rf => decide (rf.group = RfGroup.G2_RA_GC))) with _ | rfb
          · rw [hb] at hp''; cases hp''
          · rw [hb] at hp''
            rcases List.mem_singleton.mp hp'' with rfl
            exact hg2 _ (bestByRr_mem hb)
      · rcases hb : (List.insertionSort (fun a b : RiskFactor => b.rr_3y ≤ a.rr_3y)
            (selectedRfs.filter (fun rf => decide (rf.group = RfGroup.G3_OTHER)))).head?
            with _ | rfb
        · rw [hb] at hp'; cases hp'
        · rw [hb] at hp'
          rcases List.mem_singleton.mp hp' with rfl
          refine hg3sort _ ?_
          rw [List.head?_eq_getElem?] at hb
          exact List.getElem?_mem hb
    · rcases hb : (List.insertionSort (fun a b : RiskFactor => b.rr_3y ≤ a.rr_3y)
          (selectedRfs.filter (fun rf => decide (rf.group = RfGroup.G3_OTHER))))[1]?
          with _ | rfb
      · rw [hb] at hp; cases hp
      · rw [hb] at hp
        rcases List.mem_singleton.mp hp with rfl
        exact hg3sort _ (List.getElem?_mem hb)

/-- `selectTop2RiskFactors` only looks at the selection through the selected
slice of `allRfs`. -/
lemma selectTop2_congr (s1 s2 : Finset String) (rfs : List RiskFactor)
    (h : rfs.filter (fun rf => decide (rf.rf_id ∈ s1)) =
      rfs.filter (fun rf => decide (rf.rf_id ∈ s2))) :
    selectTop2RiskFactors s1 rfs = selectTop2RiskFactors s2 rfs := by
  simp only [selectTop2RiskFactors]
  rw [h]

/-- C9: a selected risk factor with `included_in_risk_calc = false` but with
the imminent (or strong/irreversible) flag makes the corresponding trigger
boolean (`imminent` for `imminent_rr`, `strongIrreversibleA` for
`strong_irreversible_A`) and `triggerPresent` true, while the top-2 selection
over `availableRfs` contains only calculation-eligible factors — in
particular never the trigger-only factor — and (with ids unique to
ineligible factors) erasing it from the selection leaves the combined
multiplier unchanged. -/
theorem triggerOnlyRf_spec (catalog : List RiskFactor) (selectedRfIds : Finset String)
    (rf : RiskFactor) (hmem : rf ∈ catalog) (hsel : rf.rf_id ∈ selectedRfIds)
    (hexcl : rf.included_in_risk_calc = false)
    (hflag : rf.flags.imminent_rr = true ∨ rf.flags.strong_irreversible_A = true) :
    (rf.flags.imminent_rr = true →
      (resultsTriggers catalog selectedRfIds).1 = true) ∧
    (rf.flags.strong_irreversible_A = true →
      (resultsTriggers catalog selectedRfIds).2.1 = true) ∧
    (resultsTriggers catalog selectedRfIds).2.2 = true ∧
    (∀ info ∈ selectTop2RiskFactors selectedRfIds (availableRfs catalog),
      info.rf.included_in_risk_calc = true) ∧
    (∀ info ∈ selectTop2RiskFactors selectedRfIds (availableRfs catalog), info.rf ≠ rf) ∧
    ((∀ rf2 ∈ catalog, rf2.rf_id = rf.rf_id → rf2.included_in_risk_calc = false) →
      computeCombinedMultiplier
          (selectTop2RiskFactors (selectedRfIds.erase rf.rf_id) (availableRfs catalog)) =
        computeCombinedMultiplier
          (selectTop2RiskFactors selectedRfIds (availableRfs catalog))) := by
  have heligible : ∀ info ∈ selectTop2RiskFactors selectedRfIds (availableRfs catalog),
      info.rf.included_in_risk_calc = true := by
    intro info hinfo
    have h1 := mem_selectTop2 selectedRfIds (availableRfs catalog) info hinfo
    have h2 : info.rf ∈ availableRfs catalog := List.mem_of_mem_filter h1
    exact (List.mem_filter.mp h2).2
  have hrfsel : rf ∈ (getAllRiskFactors catalog).filter
      (fun rf2 => decide (rf2.rf_id ∈ selectedRfIds)) :=
    List.mem_filter.mpr ⟨hmem, by simpa using hsel⟩
  have himminent : rf.flags.imminent_rr = true →
      ((getAllRiskFactors catalog).filter
        (fun rf2 => decide (rf2.rf_id ∈ selectedRfIds))).any
          (fun rf2 => rf2.flags.imminent_rr) = true :=
    fun hf => List.any_eq_true.mpr ⟨rf, hrfsel, hf⟩
  have hstrong : rf.flags.strong_irreversible_A = true →
      ((getAllRiskFactors catalog).filter
        (fun rf2 => decide (rf2.rf_id ∈ selectedRfIds))).any
          (fun rf2 => rf2.flags.strong_irreversible_A) = true :=
    fun hf => List.any_eq_true.mpr ⟨rf, hrfsel, hf⟩
  refine ⟨fun hf => himminent hf, fun hf => hstrong hf, ?_, heligible, ?_, ?_⟩
  · show (_ || _) = true
    rcases hflag with hf | hf
    · simp [himminent hf]
    · simp [hstrong hf]
  · intro info hinfo heq
    have := heligible info hinfo
    rw [heq, hexcl] at this
    cases this
  · intro huniq
    refine congrArg computeCombinedMultiplier (selectTop2_congr _ _ _ ?_)
    refine List.filter_congr ?_
    intro rf2 h2
    have h2' : rf2 ∈ catalog ∧ rf2.included_in_risk_calc = true := List.mem_filter.mp h2
    have hne : rf2.rf_id ≠ rf.rf_id := by
      intro he
      have := huniq rf2 h2'.1 he
      rw [this] at h2'
      cases h2'.2
    simp [Finset.mem_erase, hne]

/-- Witness for C9: in the demo catalog, the selected trigger-only factor
carries the imminent flag and makes both the `imminent` boolean and
`triggerPresent` true. -/
theorem triggerOnlyRf_spec_witness :
    demoRfTriggerOnly ∈ demoCatalog ∧
    demoRfTriggerOnly.included_in_risk_calc = false ∧
    demoRfTriggerOnly.flags.imminent_rr = true ∧
    (resultsTriggers demoCatalog demoSelection).1 = true ∧
    (resultsTriggers demoCatalog demoSelection).2.2 = true :=
  ⟨by decide, by decide, by decide,
    (triggerOnlyRf_spec demoCatalog demoSelection demoRfTriggerOnly (by decide) (by decide)
        (by decide) (Or.inl (by decide))).1 (by decide),
    (triggerOnlyRf_spec demoCatalog demoSelection demoRfTriggerOnly (by decide) (by decide)
        (by decide) (Or.inl (by decide))).2.2.1⟩

/-- `sortBinsDesc` is a permutation of the input bins. -/
lemma sortBinsDesc_perm (bins : List ℚ) : List.Perm (sortBinsDesc bins) bins :=
  List.perm_insertionSort _ _

/-- Membership is preserved by the descending sort. -/
lemma mem_sortBinsDesc {bins : List ℚ} {x : ℚ} : x ∈ sortBinsDesc bins ↔ x ∈ bins :=
  (sortBinsDesc_perm bins).mem_iff

/-- `sortBinsDesc` is sorted best (largest) to worst (most negative). -/
lemma sortBinsDesc_sorted (bins : List ℚ) :
    (sortBinsDesc bins).Sorted (fun a b => b ≤ a) :=
  List.sorted_insertionSort _ _

/-- The head of a descending-sorted list is an upper bound. -/
lemma sorted_head_max {a : ℚ} {t : List ℚ} (h : (a :: t).Sorted (fun x y => y ≤ x)) :
    ∀ b ∈ a :: t, b ≤ a := by
  intro b hb
  rcases List.mem_cons.mp hb with rfl | hb
  · exact le_refl b
  · exact List.rel_of_sorted_cons h b hb

/-- The last element of a nonempty list is a member. -/
lemma getLastD_mem_cons : ∀ (t : List ℚ) (a d : ℚ), (a :: t).getLastD d ∈ a :: t := by
  intro t
  induction t with
  | nil => intro a d; rw [List.getLastD_cons]; exact List.mem_singleton.mpr rfl
  | cons c t ih =>
    intro a d
    rw [List.getLastD_cons]
    exact List.mem_cons_of_mem a (ih c a)

/-- The last element of a descending-sorted nonempty list is a lower bound. -/
lemma sorted_getLastD_min :
    ∀ (t : List ℚ) (a d : ℚ), (a :: t).Sorted (fun x y => y ≤ x) →
      ∀ b ∈ a :: t, (a :: t).getLastD d ≤ b := by
  intro t
  induction t with
  | nil =>
    intro a d _ b hb
    rcases List.mem_cons.mp hb with rfl | hb
    · rw [List.getLastD_cons]; exact le_refl b
    · cases hb
  | cons c t ih =>
    intro a d hs b hb
    have hs' : (c :: t).Sorted (fun x y => y ≤ x) := hs.of_cons
    have hca : c ≤ a := List.rel_of_sorted_cons hs c (List.mem_cons_self c t)
    rw [List.getLastD_cons]
    rcases List.mem_cons.mp hb with rfl | hb
    · exact le_trans (ih c b hs' c (List.mem_cons_self c t)) hca
    · exact ih c a hs' b hb

/-- The adjacent-pair scan returns a member of the list. -/
lemma findBetweenBin_mem :
    ∀ (l : List ℚ) (t c : ℚ), findBetweenBin t l = Option.some c → c ∈ l := by
  intro l
  induction l with
  | nil => intro t c h; cases h
  | cons p rest ih =>
    intro t c h
    cases rest with
    | nil => cases h
    | cons q rest2 =>
      rw [findBetweenBin] at h
      by_cases hc : t < p ∧ t > q
      · rw [if_pos hc] at h
        rcases Option.some.injEq _ _ ▸ h with rfl
        exact List.mem_cons_of_mem p (List.mem_cons_self q rest2)
      · rw [if_neg hc] at h
        exact List.mem_cons_of_mem p (ih t c h)

/-- On a descending-sorted list, a score strictly between an adjacent pair is
resolved by the scan to the worse (more negative) neighbor. -/
lemma findBetweenBin_adjacent :
    ∀ (pre : List ℚ) (a b : ℚ) (post : List ℚ) (t : ℚ),
      (pre ++ a :: b :: post).Sorted (fun x y => y ≤ x) → b < t → t < a →
      findBetweenBin t (pre ++ a :: b :: post) = Option.some b := by
  intro pre
  induction pre with
  | nil =>
    intro a b post t _ hb ha
    rw [List.nil_append, findBetweenBin, if_pos ⟨ha, hb⟩]
  | cons p pre ih =>
    intro a b post t hs hb ha
    have htail : (pre ++ a :: b :: post).Sorted (fun x y => y ≤ x) := by
      have := hs.of_cons
      simpa using this
    rcases hpre : pre ++ a :: b :: post with _ | ⟨q, rest2⟩
    · exact absurd hpre (by simp)
    · have ha_mem : a ∈ q :: rest2 := by
        rw [← hpre]
        exact List.mem_append.mpr (Or.inr (List.mem_cons_self a _))
      have hsq : (q :: rest2).Sorted (fun x y => y ≤ x) := by rw [← hpre]; exact htail
      have haq : a ≤ q := by
        rcases List.mem_cons.mp ha_mem with rfl | hmem
        · exact le_refl a
        · exact List.rel_of_sorted_cons hsq a hmem
      have hlist : (p :: pre) ++ a :: b :: post = p :: q :: rest2 := by
        rw [List.cons_append, hpre]
      rw [hlist, findBetweenBin, if_neg ?hneg]
      case hneg =>
        rintro ⟨_, h2⟩
        exact absurd h2 (not_lt.mpr (le_of_lt (lt_of_lt_of_le ha haq)))
      rw [← hpre]
      exact ih a b post t htail hb ha

/-- C8: `mapTscoreToBin` fails on an empty bin list; otherwise it returns a
member of the available bins (closure); an exact match returns that bin; a
score better than every bin snaps to the best bin; a score worse than every
bin snaps to the worst bin; and a score strictly between two adjacent sorted
bins snaps to the worse (more negative) neighbor. -/
theorem mapTscoreToBin_spec (tscore : ℚ) (availableBins : List ℚ) :
    (availableBins = [] → mapTscoreToBin tscore availableBins = Option.none) ∧
    (availableBins ≠ [] →
      ∃ bin, mapTscoreToBin tscore availableBins = Option.some bin ∧ bin ∈ availableBins) ∧
    (tscore ∈ availableBins → mapTscoreToBin tscore availableBins = Option.some tscore) ∧
    ((∀ b ∈ availableBins, b < tscore) → availableBins ≠ [] →
      ∃ best, mapTscoreToBin tscore availableBins = Option.some best ∧
        best ∈ availableBins ∧ ∀ b ∈ availableBins, b ≤ best) ∧
    ((∀ b ∈ availableBins, tscore < b) → availableBins ≠ [] →
      ∃ worst, mapTscoreToBin tscore availableBins = Option.some worst ∧
        worst ∈ availableBins ∧ ∀ b ∈ availableBins, worst ≤ b) ∧
    (∀ pre a b post, sortBinsDesc availableBins = pre ++ a :: b :: post →
      b < tscore → tscore < a → mapTscoreToBin tscore availableBins = Option.some b) := by
  by_cases hbins : availableBins = []
  · subst hbins
    refine ⟨fun _ => rfl, fun h => absurd rfl h, ?_, fun _ h => absurd rfl h,
      fun _ h => absurd rfl h, ?_⟩
    · intro h; cases h
    · intro pre a b post heq
      have : sortBinsDesc ([] : List ℚ) = [] := rfl
      rw [this] at heq
      exact absurd heq.symm (by simp)
  · obtain ⟨bestBin, restBins, hsb⟩ : ∃ a t, sortBinsDesc availableBins = a :: t := by
      cases h : sortBinsDesc availableBins with
      | nil =>
        exact absurd (List.Perm.eq_nil ((sortBinsDesc_perm availableBins).symm.trans
          (h ▸ List.Perm.refl _))) hbins
      | cons a t => exact ⟨a, t, rfl⟩
    have heval : mapTscoreToBin tscore availableBins =
        (if tscore ∈ bestBin :: restBins then Option.some tscore
         else if tscore > bestBin then Option.some bestBin
         else if tscore < (bestBin :: restBins).getLastD bestBin then
           Option.some ((bestBin :: restBins).getLastD bestBin)
         else
           match findBetweenBin tscore (bestBin :: restBins) with
           | Option.some curr => Option.some curr
           | Option.none => Option.some ((bestBin :: restBins).getLastD bestBin)) := by
      unfold mapTscoreToBin
      rw [hsb]
    have hsorted : (bestBin :: restBins).Sorted (fun x y => y ≤ x) := by
      rw [← hsb]; exact sortBinsDesc_sorted availableBins
    have hmemiff : ∀ x : ℚ, x ∈ bestBin :: restBins ↔ x ∈ availableBins := by
      intro x; rw [← hsb]; exact mem_sortBinsDesc
    have hbestmem : bestBin ∈ availableBins :=
      (hmemiff bestBin).mp (List.mem_cons_self bestBin restBins)
    have hmax : ∀ b ∈ availableBins, b ≤ bestBin := fun b hb =>
      sorted_head_max hsorted b ((hmemiff b).mpr hb)
    have hworstmem : (bestBin :: restBins).getLastD bestBin ∈ availableBins :=
      (hmemiff _).mp (getLastD_mem_cons restBins bestBin bestBin)
    have hmin : ∀ b ∈ availableBins, (bestBin :: restBins).getLastD bestBin ≤ b := fun b hb =>
      sorted_getLastD_min restBins bestBin bestBin hsorted b ((hmemiff b).mpr hb)
    refine ⟨fun h => absurd h hbins, ?_, ?_, ?_, ?_, ?_⟩
    · intro _
      rw [heval]
      by_cases hin : tscore ∈ bestBin :: restBins
      · rw [if_pos hin]
        exact ⟨tscore, rfl, (hmemiff tscore).mp hin⟩
      · rw [if_neg hin]
        by_cases hgt : tscore > bestBin
        · rw [if_pos hgt]
          exact ⟨bestBin, rfl, hbestmem⟩
        · rw [if_neg hgt]
          by_cases hlt : tscore < (bestBin :: restBins).getLastD bestBin
          · rw [if_pos hlt]
            exact ⟨_, rfl, hworstmem⟩
          · rw [if_neg hlt]
            cases hfb : findBetweenBin tscore (bestBin :: restBins) with
            | none => exact ⟨_, rfl, hworstmem⟩
            | some c =>
              exact ⟨c, rfl, (hmemiff c).mp (findBetweenBin_mem _ _ _ hfb)⟩
    · intro hin
      rw [heval, if_pos ((hmemiff tscore).mpr hin)]
    · intro hlt _
      have hnin : tscore ∉ bestBin :: restBins := fun hin =>
        absurd (hlt tscore ((hmemiff tscore).mp hin)) (lt_irrefl tscore)
      rw [heval, if_neg hnin, if_pos (hlt bestBin hbestmem)]
      exact ⟨bestBin, rfl, hbestmem, hmax⟩
    · intro hgt _
      have hnin : tscore ∉ bestBin :: restBins := fun hin =>
        absurd (hgt tscore ((hmemiff tscore).mp hin)) (lt_irrefl tscore)
      have hnb : ¬ tscore > bestBin := not_lt.mpr (le_of_lt (hgt bestBin hbestmem))
      rw [heval, if_neg hnin, if_neg hnb, if_pos (hgt _ hworstmem)]
      exact ⟨_, rfl, hworstmem, hmin⟩
    · intro pre a b post heq hb ha
      have hcomb : bestBin :: restBins = pre ++ a :: b :: post := by rw [← hsb, heq]
      have hamem : a ∈ availableBins := by
        rw [← hmemiff a, hcomb]
        exact List.mem_append.mpr (Or.inr (List.mem_cons_self a _))
      have hbmem : b ∈ availableBins := by
        rw [← hmemiff b, hcomb]
        exact List.mem_append.mpr (Or.inr (List.mem_cons_of_mem a (List.mem_cons_self b _)))
      have hsorted2 : (pre ++ a :: b :: post).Sorted (fun x y => y ≤ x) := by
        rw [← hcomb]; exact hsorted
      have hnin : tscore ∉ bestBin :: restBins := by
        rw [hcomb]
        intro hin
        rcases List.mem_append.mp hin with hpre | hpost
        · have hla : a ≤ tscore :=
            (List.pairwise_append.mp hsorted2).2.2 tscore hpre a (List.mem_cons_self a _)
          exact absurd ha (not_lt.mpr hla)
        · rcases List.mem_cons.mp hpost with rfl | hpost'
          · exact absurd ha (lt_irrefl tscore)
          · rcases List.mem_cons.mp hpost' with rfl | hpost''
            · exact absurd hb (lt_irrefl tscore)
            · have hsab : (a :: b :: post).Sorted (fun x y => y ≤ x) :=
                (List.pairwise_append.mp hsorted2).2.1
              have : tscore ≤ b := List.rel_of_sorted_cons hsab.of_cons tscore hpost''
              exact absurd hb (not_lt.mpr this)
      have hnb : ¬ tscore > bestBin :=
        not_lt.mpr (le_of_lt (lt_of_lt_of_le ha (hmax a hamem)))
      have hnw : ¬ tscore < (bestBin :: restBins).getLastD bestBin :=
        not_lt.mpr (le_of_lt (lt_of_le_of_lt (hmin b hbmem) hb))
      have hfb : findBetweenBin tscore (bestBin :: restBins) = Option.some b := by
        rw [hcomb]
        exact findBetweenBin_adjacent pre a b post tscore hsorted2 hb ha
      rw [heval, if_neg hnin, if_neg hnb, if_neg hnw, hfb]

/-- Witness for C8: with bins {1, 3, 5} and score 4 (strictly between the
sorted neighbors 5 and 3), the result snaps to the worse neighbor 3. -/
theorem mapTscoreToBin_spec_witness :
    sortBinsDesc demoBins = [] ++ (5 : ℚ) :: (3 : ℚ) :: [1] ∧
    mapTscoreToBin 4 demoBins = Option.some 3 :=
  ⟨by decide,
    (mapTscoreToBin_spec 4 demoBins).2.2.2.2.2 [] 5 3 [1] (by decide) (by decide) (by decide)⟩

/-- Three-way string comparison is nonpositive exactly for `≤`. -/
lemma strCompareInt_le_zero_iff (a b : String) : strCompareInt a b ≤ 0 ↔ a ≤ b := by
  unfold strCompareInt
  split_ifs with h1 h2
  · exact iff_of_true (by norm_num) (le_of_lt h1)
  · exact iff_of_false (by norm_num) (not_le.mpr h2)
  · exact iff_of_true (le_refl 0) (le_of_not_lt h2)

/-- A disagreeing pair of booleans is (true, false) or (false, true). -/
lemma bool_ne_cases {x y : Bool} (h : x ≠ y) :
    (x = true ∧ y = false) ∨ (x = false ∧ y = true) := by
  cases x <;> cases y <;> simp_all

/-- The comparator is nonpositive exactly along the 4-key lexicographic order
(level order, hip true-first, vertebral true-first, id alphabetical). -/
lemma rankLE_iff (a b : RankedSubstance) :
    rankLE a b ↔
      (getEvidenceLevelOrder (rsLevel a) < getEvidenceLevelOrder (rsLevel b) ∨
        (getEvidenceLevelOrder (rsLevel a) = getEvidenceLevelOrder (rsLevel b) ∧
          ((rsHip a = true ∧ rsHip b = false) ∨
            (rsHip a = rsHip b ∧
              ((rsVert a = true ∧ rsVert b = false) ∨
                (rsVert a = rsVert b ∧ a.substance_id ≤ b.substance_id)))))) := by
  simp only [rankLE, rankCompare]
  by_cases h1 : ((getEvidenceLevelOrder (rsLevel a) : Int) -
      (getEvidenceLevelOrder (rsLevel b) : Int)) = 0
  · rw [if_neg (not_not_intro h1)]
    have heqn : getEvidenceLevelOrder (rsLevel a) = getEvidenceLevelOrder (rsLevel b) := by
      omega
    have hr : ∀ X : Prop,
        (getEvidenceLevelOrder (rsLevel a) < getEvidenceLevelOrder (rsLevel b) ∨
          (getEvidenceLevelOrder (rsLevel a) = getEvidenceLevelOrder (rsLevel b) ∧ X)) ↔ X := by
      intro X
      constructor
      · rintro (h | ⟨_, hx⟩)
        · omega
        · exact hx
      · intro hx
        exact Or.inr ⟨heqn, hx⟩
    rw [hr]
    by_cases h2 : rsHip a = rsHip b
    · rw [if_neg (not_not_intro h2)]
      have hr2 : ∀ Y : Prop,
          ((rsHip a = true ∧ rsHip b = false) ∨ (rsHip a = rsHip b ∧ Y)) ↔ Y := by
        intro Y
        constructor
        · rintro (⟨p, q⟩ | ⟨_, hy⟩)
          · rw [h2, q] at p
            exact absurd p (by decide)
          · exact hy
        · intro hy
          exact Or.inr ⟨h2, hy⟩
      rw [hr2]
      by_cases h3 : rsVert a = rsVert b
      · rw [if_neg (not_not_intro h3)]
        have hr3 : ((rsVert a = true ∧ rsVert b = false) ∨
            (rsVert a = rsVert b ∧ a.substance_id ≤ b.substance_id)) ↔
            a.substance_id ≤ b.substance_id := by
          constructor
          · rintro (⟨p, q⟩ | ⟨_, hy⟩)
            · rw [h3, q] at p
              exact absurd p (by decide)
            · exact hy
          · intro hy
            exact Or.inr ⟨h3, hy⟩
        rw [hr3]
        exact strCompareInt_le_zero_iff _ _
      · rw [if_pos h3]
        rcases bool_ne_cases h3 with ⟨hva, hvb⟩ | ⟨hva, hvb⟩
        · simp [hva, hvb]
        · simp [hva, hvb]
    · rw [if_pos h2]
      rcases bool_ne_cases h2 with ⟨hha, hhb⟩ | ⟨hha, hhb⟩
      · simp [hha, hhb]
      · simp [hha, hhb]
  · rw [if_pos h1]
    constructor
    · intro hle
      exact Or.inl (by omega)
    · rintro (h | ⟨heq, _⟩) <;> omega

/-- The comparator relation is total. -/
lemma rankLE_total (a b : RankedSubstance) : rankLE a b ∨ rankLE b a := by
  rw [rankLE_iff, rankLE_iff]
  rcases Nat.lt_trichotomy (getEvidenceLevelOrder (rsLevel a))
      (getEvidenceLevelOrder (rsLevel b)) with h | h | h
  · exact Or.inl (Or.inl h)
  · by_cases hh : rsHip a = rsHip b
    · by_cases hv : rsVert a = rsVert b
      · rcases le_total a.substance_id b.substance_id with hs | hs
        · exact Or.inl (Or.inr ⟨h, Or.inr ⟨hh, Or.inr ⟨hv, hs⟩⟩⟩)
        · exact Or.inr (Or.inr ⟨h.symm, Or.inr ⟨hh.symm, Or.inr ⟨hv.symm, hs⟩⟩⟩)
      · rcases bool_ne_cases hv with ⟨hva, hvb⟩ | ⟨hva, hvb⟩
        · exact Or.inl (Or.inr ⟨h, Or.inr ⟨hh, Or.inl ⟨hva, hvb⟩⟩⟩)
        · exact Or.inr (Or.inr ⟨h.symm, Or.inr ⟨hh.symm, Or.inl ⟨hvb, hva⟩⟩⟩)
    · rcases bool_ne_cases hh with ⟨hha, hhb⟩ | ⟨hha, hhb⟩
      · exact Or.inl (Or.inr ⟨h, Or.inl ⟨hha, hhb⟩⟩)
      · exact Or.inr (Or.inr ⟨h.symm, Or.inl ⟨hhb, hha⟩⟩)
  · exact Or.inr (Or.inl h)

/-- The comparator relation is transitive. -/
lemma rankLE_trans (a b c : RankedSubstance) (h1 : rankLE a b) (h2 : rankLE b c) :
    rankLE a c := by
  rw [rankLE_iff] at h1 h2 ⊢
  rcases h1 with h1 | ⟨e1, h1⟩
  · rcases h2 with h2 | ⟨e2, h2⟩
    · exact Or.inl (lt_trans h1 h2)
    · exact Or.inl (by omega)
  · rcases h2 with h2 | ⟨e2, h2⟩
    · exact Or.inl (by omega)
    · refine Or.inr ⟨by omega, ?_⟩
      rcases h1 with ⟨p1, p2⟩ | ⟨pe, h1⟩
      · rcases h2 with ⟨q1, q2⟩ | ⟨qe, h2⟩
        · rw [p2] at q1
          exact absurd q1 (by decide)
        · exact Or.inl ⟨p1, by rw [← qe]; exact p2⟩
      · rcases h2 with ⟨q1, q2⟩ | ⟨qe, h2⟩
        · exact Or.inl ⟨by rw [pe]; exact q1, q2⟩
        · refine Or.inr ⟨pe.trans qe, ?_⟩
          rcases h1 with ⟨v1, v2⟩ | ⟨ve, h1⟩
          · rcases h2 with ⟨w1, w2⟩ | ⟨we, h2⟩
            · rw [v2] at w1
              exact absurd w1 (by decide)
            · exact Or.inl ⟨v1, by rw [← we]; exact v2⟩
          · rcases h2 with ⟨w1, w2⟩ | ⟨we, h2⟩
            · exact Or.inl ⟨by rw [ve]; exact w1, w2⟩
            · exact Or.inr ⟨ve.trans we, le_trans h1 h2⟩

/-- Mutually nonpositive comparisons force equal substance ids. -/
lemma rankLE_antisymm_id (a b : RankedSubstance) (h1 : rankLE a b) (h2 : rankLE b a) :
    a.substance_id = b.substance_id := by
  rw [rankLE_iff] at h1 h2
  rcases h1 with h1 | ⟨e1, h1⟩
  · rcases h2 with h2 | ⟨e2, h2⟩
    · omega
    · omega
  · rcases h2 with h2 | ⟨e2, h2⟩
    · omega
    · rcases h1 with ⟨p1, p2⟩ | ⟨pe, h1⟩
      · rcases h2 with ⟨q1, q2⟩ | ⟨qe, h2⟩
        · rw [p1] at q2
          exact absurd q2 (by decide)
        · rw [p1, p2] at qe
          exact absurd qe (by decide)
      · rcases h2 with ⟨q1, q2⟩ | ⟨qe, h2⟩
        · rw [q2, q1] at pe
          exact absurd pe (by decide)
        · rcases h1 with ⟨v1, v2⟩ | ⟨ve, h1⟩
          · rcases h2 with ⟨w1, w2⟩ | ⟨we, h2⟩
            · rw [v1] at w2
              exact absurd w2 (by decide)
            · rw [v1, v2] at we
              exact absurd we (by decide)
          · rcases h2 with ⟨w1, w2⟩ | ⟨we, h2⟩
            · rw [w2, w1] at ve
              exact absurd ve (by decide)
            · exact le_antisymm h1 h2

/-- Two sorted lists that are permutations of each other, on which the order
is antisymmetric, are equal. -/
lemma eq_of_perm_of_sorted_on {α : Type _} {r : α → α → Prop} :
    ∀ {l₁ l₂ : List α}, List.Perm l₁ l₂ → l₁.Sorted r → l₂.Sorted r →
      (∀ a ∈ l₁, ∀ b ∈ l₂, r a b → r b a → a = b) → l₁ = l₂ := by
  intro l₁
  induction l₁ with
  | nil =>
    intro l₂ hp _ _ _
    exact (List.Perm.eq_nil hp.symm).symm
  | cons a t₁ ih =>
    intro l₂ hp hs₁ hs₂ hanti
    cases l₂ with
    | nil => exact absurd (List.Perm.eq_nil hp) (by simp)
    | cons b t₂ =>
      have hab : a = b := by
        have hamem : a ∈ b :: t₂ := hp.subset (List.mem_cons_self a t₁)
        have hbmem : b ∈ a :: t₁ := hp.symm.subset (List.mem_cons_self b t₂)
        rcases List.mem_cons.mp hamem with h | hat2
        · exact h
        · rcases List.mem_cons.mp hbmem with h | hbt1
          · exact h.symm
          · exact hanti a (List.mem_cons_self a t₁) b (List.mem_cons_self b t₂)
              (List.rel_of_sorted_cons hs₁ b hbt1)
              (List.rel_of_sorted_cons hs₂ a hat2)
      subst hab
      have hperm : List.Perm t₁ t₂ := List.Perm.cons_inv hp
      have ht : t₁ = t₂ := ih hperm hs₁.of_cons hs₂.of_cons
        (fun x hx y hy => hanti x (List.mem_cons_of_mem a hx) y (List.mem_cons_of_mem a hy))
      rw [ht]

/-- An element of the mapped candidate list is determined by its id. -/
lemma mem_map_rankedEntry {evidenceTable : List EvidenceEntry} {ids : List String}
    {e : RankedSubstance} (h : e ∈ ids.map (rankedEntry evidenceTable)) :
    e = rankedEntry evidenceTable e.substance_id := by
  obtain ⟨i, _, rfl⟩ := List.mem_map.mp h
  rfl

/-- C7: `rankSubstancesByEvidence` sorts the annotated candidates by the
4-key lexicographic comparator order; a candidate with no evidence entry is
annotated with `none` (not an error) and ordered with lowest level rank; the
id tiebreak makes the order total, so candidate sets that are permutations of
each other produce the same output list. -/
theorem rankSubstancesByEvidence_spec (evidenceTable : List EvidenceEntry)
    (ids1 ids2 : List String) (hperm : List.Perm ids1 ids2) :
    rankSubstancesByEvidence evidenceTable ids1 =
      rankSubstancesByEvidence evidenceTable ids2 ∧
    (rankSubstancesByEvidence evidenceTable ids1).Sorted rankLE ∧
    List.Perm (rankSubstancesByEvidence evidenceTable ids1)
      (ids1.map (rankedEntry evidenceTable)) ∧
    (∀ s, getEvidenceFor evidenceTable s = Option.none →
      (rankedEntry evidenceTable s).evidence = Option.none ∧
      getEvidenceLevelOrder (rsLevel (rankedEntry evidenceTable s)) = 3) := by
  haveI : IsTotal RankedSubstance rankLE := ⟨rankLE_total⟩
  haveI : IsTrans RankedSubstance rankLE := ⟨rankLE_trans⟩
  have hsorted1 : (rankSubstancesByEvidence evidenceTable ids1).Sorted rankLE :=
    List.sorted_insertionSort rankLE _
  have hsorted2 : (rankSubstancesByEvidence evidenceTable ids2).Sorted rankLE :=
    List.sorted_insertionSort rankLE _
  have hp1 : List.Perm (rankSubstancesByEvidence evidenceTable ids1)
      (ids1.map (rankedEntry evidenceTable)) := List.perm_insertionSort _ _
  have hp2 : List.Perm (rankSubstancesByEvidence evidenceTable ids2)
      (ids2.map (rankedEntry evidenceTable)) := List.perm_insertionSort _ _
  refine ⟨?_, hsorted1, hp1, ?_⟩
  · refine eq_of_perm_of_sorted_on ?_ hsorted1 hsorted2 ?_
    · exact hp1.trans ((hperm.map (rankedEntry evidenceTable)).trans hp2.symm)
    · intro x hx y hy hxy hyx
      have hx' := mem_map_rankedEntry (hp1.subset hx)
      have hy' := mem_map_rankedEntry (hp2.subset hy)
      have hid : x.substance_id = y.substance_id := rankLE_antisymm_id x y hxy hyx
      rw [hx', hy', hid]
  · intro s h
    have he : (rankedEntry evidenceTable s).evidence = getEvidenceFor evidenceTable s := rfl
    constructor
    · rw [he, h]
    · simp [rsLevel, he, h, getEvidenceLevelOrder]

/-- Witness for C7: the two orders of the same two candidate ids produce the
same ranked list. -/
theorem rankSubstancesByEvidence_spec_witness :
    List.Perm [subIdX, subIdY] [subIdY, subIdX] ∧
    rankSubstancesByEvidence [] [subIdX, subIdY] =
      rankSubstancesByEvidence [] [subIdY, subIdX] :=
  ⟨by decide,
    (rankSubstancesByEvidence_spec [] [subIdX, subIdY] [subIdY, subIdX] (by decide)).1⟩

end Osteopo
